import Mathlib

/-!
Verification of the codex-synaptic memory repository ("Codex") and
cognitive cycle ("SynapticLoop") against their specification.

The Python sources live in `src/python/src/codex_synaptic/`:
  * `codex.py`       — `Codex.add_memory`, `Codex.retrieve_memory`,
                       `Codex.get_memory_count`, `Codex.clear_memories`
  * `synaptic_loop.py` — `SynapticLoop.process_sensory_input`,
                       `_update_beliefs`, `_run_cycle`, `_deliberate`,
                       `get_beliefs`, `get_current_intention`, `clear_beliefs`
  * `memory_model.py` — the `Memory` record

External collaborators (the sentence-transformer embedding provider and the
ChromaDB vector index) are not part of the repository; they are modelled from
the specification: the provider is an arbitrary deterministic partial function
from text to a rational vector, and the index performs cosine-similarity
nearest-neighbour search with ties broken by insertion order, rejecting
dimensionality mismatches.  Floats are modelled as rationals.
-/

namespace CodexSynaptic

/-- Python's `not s.strip()` guard: the string is empty after trimming
whitespace, i.e. every character is whitespace. -/
def isBlank (s : String) : Bool :=
  s.data.all Char.isWhitespace

/-- Error taxonomy of the specification (§7): `InvalidInput`,
`EmbeddingFailure`, `StorageFailure`.  The Python code raises `ValueError`
for invalid input and re-raises provider / ChromaDB exceptions, which the
spec classifies as embedding and storage failures respectively. -/
inductive CodexError where
  | invalidInput
  | embeddingFailure
  | storageFailure
deriving DecidableEq

/-- One stored memory (`memory_model.py`, class `Memory`): unique id,
original content, embedding vector, metadata, creation timestamp.
Ids (uuid4 in Python) are modelled by a counter; timestamps by a `Nat`. -/
structure MemRecord where
  id : Nat
  content : String
  embedding : List Rat
  metadata : List (String × String)
  timestamp : Nat
deriving DecidableEq

/-- The persistent collection underlying the Codex: the stored records in
insertion order, plus the id counter. -/
structure CodexState where
  records : List MemRecord
  nextId : Nat
deriving DecidableEq

/-- A freshly initialized (empty) repository. -/
def codexEmpty : CodexState := { records := [], nextId := 0 }

/-- The external environment of one run: the embedding provider
(`None` = provider unavailable / erroring, i.e. `EmbeddingFailure`), and
whether the storage layer's write respectively search operations fail
(`StorageFailure`).  The provider is a function, hence deterministic per
text, as the spec requires. -/
structure Env where
  embed : String → Option (List Rat)
  storeFails : Bool
  queryFails : Bool

/-- Dot product of two rational vectors (truncating at the shorter). -/
def dotp : List Rat → List Rat → Rat
  | x :: xs, y :: ys => x * y + dotp xs ys
  | _, _ => 0

/-- Squared Euclidean norm. -/
def normSq (v : List Rat) : Rat := dotp v v

/-- Modelled from the spec: the comparison key of a stored vector `u`
against a query `q` for cosine similarity.  A zero-norm vector (on either
side) gets similarity `0`, encoded as the key `(0, 1)`; otherwise the key
is `(⟪q,u⟫, ‖u‖²)`, representing the value `⟪q,u⟫ / (‖q‖·‖u‖)` without
taking square roots. -/
def cosKey (q u : List Rat) : Rat × Rat :=
  if normSq q = 0 ∨ normSq u = 0 then (0, 1) else (dotp q u, normSq u)

/-- Strict "greater cosine similarity" comparison of two keys, done on
rationals by comparing signs and then cross-multiplied squares. -/
def keyGT : Rat × Rat → Rat × Rat → Bool
  | (d₁, n₁), (d₂, n₂) =>
    if 0 ≤ d₁ then
      if 0 ≤ d₂ then decide (d₂ ^ 2 * n₁ < d₁ ^ 2 * n₂) else true
    else
      if 0 ≤ d₂ then false else decide (d₁ ^ 2 * n₂ < d₂ ^ 2 * n₁)

/-- `cosGT q u v`: the cosine similarity of `u` to the query `q` is
strictly greater than that of `v`. -/
def cosGT (q u v : List Rat) : Bool := keyGT (cosKey q u) (cosKey q v)

/-- The comparator on stored records: strictly greater cosine similarity
of the record's embedding to the query. -/
def recGT (q : List Rat) (a b : MemRecord) : Bool :=
  cosGT q a.embedding b.embedding

/-- The real-valued cosine similarity the key encodes (proof-side only):
`⟪q,u⟫ / (‖q‖·‖u‖)`, with the zero-norm convention giving `0`. -/
noncomputable def cosR (q u : List Rat) : ℝ :=
  ((cosKey q u).1 : ℝ) / (Real.sqrt (normSq q) * Real.sqrt ((cosKey q u).2))

/-- The real cosine similarity of a stored record to the query. -/
noncomputable def recKey (q : List Rat) (r : MemRecord) : ℝ :=
  cosR q r.embedding

/-- Stable descending insertion: `x` is placed after exactly those earlier
elements that are strictly greater, so insertion order breaks ties. -/
def insertDesc {α : Type} (gt : α → α → Bool) (x : α) : List α → List α
  | [] => [x]
  | y :: ys => if gt y x then y :: insertDesc gt x ys else x :: y :: ys

/-- Stable descending insertion sort. -/
def sortDesc {α : Type} (gt : α → α → Bool) : List α → List α
  | [] => []
  | x :: xs => insertDesc gt x (sortDesc gt xs)

/-- Modelled from the spec: the vector index's nearest-neighbour search
(`collection.query` in ChromaDB, external to the repository): the stored
records ordered from most to least cosine-similar to the query embedding,
ties broken by insertion order, truncated to `k`. -/
def nearest (q : List Rat) (rs : List MemRecord) (k : Nat) : List MemRecord :=
  (sortDesc (recGT q) rs).take k

/-- Modelled from the spec: the index rejects an embedding whose
dimensionality differs from that of the records already stored
(ChromaDB raises on such an add or query; §7 classifies this as a
storage-boundary failure). -/
def dimMismatch (rs : List MemRecord) (e : List Rat) : Bool :=
  rs.any fun r => r.embedding.length ≠ e.length

/-- `Codex.add_memory` (codex.py lines 62–110).  Rejects blank content
(`InvalidInput`); obtains the embedding from the provider
(`EmbeddingFailure` if unavailable); builds the `Memory` record with a
fresh id and the supplied metadata and timestamp; stores it in the index
(`StorageFailure` if the write fails or the dimensionality mismatches),
atomically: on any failure the returned state is the input state. -/
def add_memory (env : Env) (s : CodexState) (content : String)
    (metadata : List (String × String)) (now : Nat) :
    Except CodexError MemRecord × CodexState :=
  if isBlank content then (.error .invalidInput, s)
  else
    match env.embed content with
    | none => (.error .embeddingFailure, s)
    | some emb =>
      let mem : MemRecord :=
        { id := s.nextId, content := content, embedding := emb,
          metadata := metadata, timestamp := now }
      if env.storeFails || dimMismatch s.records emb then
        (.error .storageFailure, s)
      else
        (.ok mem, { records := s.records ++ [mem], nextId := s.nextId + 1 })

/-- `Codex.retrieve_memory` (codex.py lines 112–156).  Rejects a blank
query and a non-positive `top_k` (`InvalidInput`); embeds the query
(`EmbeddingFailure`); searches the index with
`n_results = min(top_k, count)` (`StorageFailure` if the search fails or
the dimensionality mismatches); returns the contents of the nearest
records, most similar first. -/
def retrieve_memory (env : Env) (s : CodexState) (query : String)
    (top_k : Int) : Except CodexError (List String) :=
  if isBlank query then .error .invalidInput
  else if top_k ≤ 0 then .error .invalidInput
  else
    match env.embed query with
    | none => .error .embeddingFailure
    | some qe =>
      if env.queryFails || dimMismatch s.records qe then .error .storageFailure
      else .ok ((nearest qe s.records (min top_k.toNat s.records.length)).map
        (fun r => r.content))

/-- `Codex.get_memory_count` (codex.py lines 158–165). -/
def get_memory_count (s : CodexState) : Nat := s.records.length

/-- `Codex.clear_memories` (codex.py lines 167–178): deletes the
collection and recreates it empty. -/
def clear_memories (s : CodexState) : CodexState :=
  { records := [], nextId := s.nextId }

/-- The agent's in-process state (`synaptic_loop.py`, `SynapticLoop`):
the Codex, the belief set (a Python `set` of strings: deduplicated,
unordered), and the current intention (`None` before the first cycle). -/
structure LoopState where
  codex : CodexState
  beliefs : Finset String
  current_intention : Option String
deriving DecidableEq

/-- A freshly constructed `SynapticLoop` over the repository `c`:
no beliefs, no intention. -/
def loopInit (c : CodexState) : LoopState :=
  { codex := c, beliefs := ∅, current_intention := none }

/-- The metadata `process_sensory_input` attaches to each stored input. -/
def sensoryMetadata : List (String × String) :=
  [("type", "sensory_input"), ("source", "user_input")]

/-- The fixed intention of `_deliberate` when the belief set is empty. -/
def awaitIntention : String :=
  "Await new sensory input to form beliefs and determine actions."

/-- `SynapticLoop._deliberate` (synaptic_loop.py lines 121–146): the
await-input statement on an empty belief set; otherwise a statement
parameterized by the memory count when it is positive, and a fixed
statement otherwise. -/
def deliberate (st : LoopState) : String :=
  if st.beliefs = ∅ then awaitIntention
  else if 0 < get_memory_count st.codex then
    "Formulate a response based on recent input and " ++
      toString (get_memory_count st.codex) ++ " stored memories."
  else
    "Formulate a response based on recent input and related memories."

/-- `SynapticLoop._update_beliefs` (synaptic_loop.py lines 77–101): add
the input-received belief; then best-effort `retrieve(input, top_k=3)`,
adding a context belief parameterized by the number of results when the
retrieval succeeds with a non-empty result; a retrieval failure is only
logged. -/
def update_beliefs (env : Env) (st : LoopState) (new_input : String) :
    LoopState :=
  let beliefs₁ := insert ("The user recently said: " ++ new_input) st.beliefs
  match retrieve_memory env st.codex new_input 3 with
  | .error _ => { st with beliefs := beliefs₁ }
  | .ok mems =>
    if mems.length ≠ 0 then
      { st with beliefs :=
          insert ("I have " ++ toString mems.length ++
            " related memories about similar topics") beliefs₁ }
    else { st with beliefs := beliefs₁ }

/-- `SynapticLoop._run_cycle` (synaptic_loop.py lines 103–119):
deliberate and overwrite the single intention slot. -/
def run_cycle (st : LoopState) : LoopState :=
  { st with current_intention := some (deliberate st) }

/-- `SynapticLoop.process_sensory_input` (synaptic_loop.py lines 40–75):
a blank input is a no-op (a warning is printed); otherwise the input is
stored via `add_memory` — on failure the cycle aborts with the state
unchanged (the error is printed) — then beliefs are updated and the
cognitive cycle runs. -/
def process_sensory_input (env : Env) (st : LoopState) (text_input : String)
    (now : Nat) : LoopState :=
  if isBlank text_input then st
  else
    match add_memory env st.codex text_input sensoryMetadata now with
    | (.error _, _) => st
    | (.ok _, c) => run_cycle (update_beliefs env { st with codex := c } text_input)

/-- `SynapticLoop.get_beliefs` (returns a copy of the belief set). -/
def get_beliefs (st : LoopState) : Finset String := st.beliefs

/-- `SynapticLoop.get_current_intention`. -/
def get_current_intention (st : LoopState) : Option String :=
  st.current_intention

/-- `SynapticLoop.clear_beliefs` (synaptic_loop.py lines 199–206):
empties the belief set only. -/
def clear_beliefs (st : LoopState) : LoopState :=
  { st with beliefs := ∅ }

/-! ### Properties of the stable descending sort -/

theorem length_insertDesc {α : Type} (gt : α → α → Bool) (x : α) (l : List α) :
    (insertDesc gt x l).length = l.length + 1 := by
  induction l with
  | nil => rfl
  | cons y ys ih =>
    simp only [insertDesc]
    split <;> simp [ih]

theorem length_sortDesc {α : Type} (gt : α → α → Bool) (l : List α) :
    (sortDesc gt l).length = l.length := by
  induction l with
  | nil => rfl
  | cons x xs ih => simp [sortDesc, length_insertDesc, ih]

theorem mem_insertDesc {α : Type} (gt : α → α → Bool) (x a : α) (l : List α) :
    a ∈ insertDesc gt x l ↔ a = x ∨ a ∈ l := by
  induction l with
  | nil => simp [insertDesc]
  | cons y ys ih =>
    simp only [insertDesc]
    split <;> simp [ih] <;> tauto

theorem mem_sortDesc {α : Type} (gt : α → α → Bool) (a : α) (l : List α) :
    a ∈ sortDesc gt l ↔ a ∈ l := by
  induction l with
  | nil => simp [sortDesc]
  | cons x xs ih => simp [sortDesc, mem_insertDesc, ih]

/-- The head of the stable descending sort is a member of the list and has
a maximal key, provided the Boolean comparator reflects a strict order on
real-valued keys. -/
theorem head_sortDesc_max {α : Type} (gt : α → α → Bool) (f : α → ℝ)
    (hgt : ∀ a b, gt a b = true ↔ f b < f a) :
    ∀ (l : List α) (h : α) (t : List α), sortDesc gt l = h :: t →
      h ∈ l ∧ ∀ z ∈ l, f z ≤ f h := by
  intro l
  induction l with
  | nil => intro h t hst; simp [sortDesc] at hst
  | cons x xs ih =>
    intro h t hst
    rw [sortDesc] at hst
    cases hxs : sortDesc gt xs with
    | nil =>
      rw [hxs] at hst
      simp only [insertDesc, List.cons.injEq] at hst
      have hxsnil : xs = [] := by
        have := length_sortDesc gt xs
        rw [hxs] at this
        exact List.length_eq_zero.mp this.symm
      subst hxsnil
      constructor
      · simp [hst.1]
      · intro z hz
        simp only [List.mem_singleton] at hz
        simp [hz, hst.1]
    | cons y ys =>
      obtain ⟨hy_mem, hy_max⟩ := ih y ys hxs
      rw [hxs] at hst
      simp only [insertDesc] at hst
      by_cases hgyx : gt y x = true
      · rw [if_pos hgyx] at hst
        have hh : y = h := ((List.cons.injEq _ _ _ _).mp hst).1
        rw [← hh]
        refine ⟨List.mem_cons_of_mem _ hy_mem, ?_⟩
        intro z hz
        rcases List.mem_cons.mp hz with hz | hz
        · rw [hz]; exact le_of_lt ((hgt y x).mp hgyx)
        · exact hy_max z hz
      · rw [if_neg hgyx] at hst
        have hh : x = h := ((List.cons.injEq _ _ _ _).mp hst).1
        rw [← hh]
        refine ⟨List.mem_cons_self _ _, ?_⟩
        intro z hz
        have hyx : f y ≤ f x := by
          have := (hgt y x).not.mp hgyx
          exact le_of_not_lt (by simpa using this)
        rcases List.mem_cons.mp hz with hz | hz
        · rw [hz]
        · exact le_trans (hy_max z hz) hyx

/-! ### The comparator reflects real cosine similarity -/

theorem dotp_self_nonneg (v : List Rat) : 0 ≤ dotp v v := by
  induction v with
  | nil => simp [dotp]
  | cons x xs ih =>
    simp only [dotp]
    nlinarith [mul_self_nonneg x, ih]

theorem normSq_nonneg (v : List Rat) : 0 ≤ normSq v := dotp_self_nonneg v

theorem cosKey_snd_pos (q u : List Rat) : 0 < (cosKey q u).2 := by
  unfold cosKey
  split
  · norm_num
  · rename_i hns
    push_neg at hns
    exact lt_of_le_of_ne (normSq_nonneg u) (Ne.symm hns.2)

theorem cosKey_of_normSq_q_eq_zero (q u : List Rat) (h : normSq q = 0) :
    cosKey q u = (0, 1) := by
  unfold cosKey
  rw [if_pos (Or.inl h)]

/-- The Boolean key comparison agrees with the real-valued quotients it
encodes. -/
theorem keyGT_iff (nq : Rat) (hnq : 0 ≤ nq) (d₁ n₁ d₂ n₂ : Rat)
    (hn₁ : 0 < n₁) (hn₂ : 0 < n₂)
    (h0 : nq = 0 → d₁ = 0 ∧ d₂ = 0) :
    keyGT (d₁, n₁) (d₂, n₂) = true ↔
      (d₂ : ℝ) / (Real.sqrt nq * Real.sqrt n₂) <
        (d₁ : ℝ) / (Real.sqrt nq * Real.sqrt n₁) := by
  by_cases hq0 : nq = 0
  · obtain ⟨hd₁, hd₂⟩ := h0 hq0
    subst hd₁ hd₂ hq0
    simp [keyGT, Real.sqrt_zero]
  · have hqpos : (0 : Rat) < nq := lt_of_le_of_ne hnq (Ne.symm hq0)
    have hA : (0 : ℝ) < Real.sqrt nq := Real.sqrt_pos.mpr (by exact_mod_cast hqpos)
    have hs₁ : (0 : ℝ) < Real.sqrt n₁ := Real.sqrt_pos.mpr (by exact_mod_cast hn₁)
    have hs₂ : (0 : ℝ) < Real.sqrt n₂ := Real.sqrt_pos.mpr (by exact_mod_cast hn₂)
    have hden₁ : (0 : ℝ) < Real.sqrt nq * Real.sqrt n₁ := mul_pos hA hs₁
    have hden₂ : (0 : ℝ) < Real.sqrt nq * Real.sqrt n₂ := mul_pos hA hs₂
    have key : ∀ a b na nb : Rat, 0 < na → 0 < nb → 0 ≤ a → 0 ≤ b →
        ((b ^ 2 * na < a ^ 2 * nb) ↔
          ((b : ℝ) / (Real.sqrt nq * Real.sqrt nb) <
            (a : ℝ) / (Real.sqrt nq * Real.sqrt na))) := by
      intro a b na nb hna hnb ha hb
      have hsa : (0 : ℝ) < Real.sqrt na := Real.sqrt_pos.mpr (by exact_mod_cast hna)
      have hsb : (0 : ℝ) < Real.sqrt nb := Real.sqrt_pos.mpr (by exact_mod_cast hnb)
      have hsqa : Real.sqrt (na : ℝ) ^ 2 = (na : ℝ) :=
        Real.sq_sqrt (by exact_mod_cast le_of_lt hna)
      have hsqb : Real.sqrt (nb : ℝ) ^ 2 = (nb : ℝ) :=
        Real.sq_sqrt (by exact_mod_cast le_of_lt hnb)
      rw [div_lt_div_iff (mul_pos hA hsb) (mul_pos hA hsa)]
      have hre : ((b : ℝ) * (Real.sqrt nq * Real.sqrt na) <
            (a : ℝ) * (Real.sqrt nq * Real.sqrt nb)) ↔
          ((b : ℝ) * Real.sqrt na < (a : ℝ) * Real.sqrt nb) := by
        constructor
        · intro h
          nlinarith [hA]
        · intro h
          nlinarith [hA]
      rw [hre]
      have hbs : (0 : ℝ) ≤ (b : ℝ) * Real.sqrt na := by positivity
      have has : (0 : ℝ) ≤ (a : ℝ) * Real.sqrt nb := by positivity
      rw [← pow_lt_pow_iff_left₀ hbs has (two_ne_zero)]
      rw [mul_pow, mul_pow, hsqa, hsqb]
      constructor
      · intro h
        push_cast
        exact_mod_cast h
      · intro h
        exact_mod_cast h
    rcases le_or_lt 0 d₁ with h₁ | h₁ <;> rcases le_or_lt 0 d₂ with h₂ | h₂
    · -- both numerators nonnegative
      simp only [keyGT, if_pos h₁, if_pos h₂, decide_eq_true_eq]
      exact key d₁ d₂ n₁ n₂ hn₁ hn₂ h₁ h₂
    · -- d₁ ≥ 0 > d₂ : strictly greater
      simp only [keyGT, if_pos h₁, if_neg (not_le.mpr h₂)]
      have hv₂ : (d₂ : ℝ) / (Real.sqrt nq * Real.sqrt n₂) < 0 :=
        div_neg_of_neg_of_pos (by exact_mod_cast h₂) hden₂
      have hv₁ : (0 : ℝ) ≤ (d₁ : ℝ) / (Real.sqrt nq * Real.sqrt n₁) :=
        div_nonneg (by exact_mod_cast h₁) (le_of_lt hden₁)
      simp [lt_of_lt_of_le hv₂ hv₁]
    · -- d₂ ≥ 0 > d₁ : not greater
      simp only [keyGT, if_neg (not_le.mpr h₁), if_pos h₂]
      have hv₁ : (d₁ : ℝ) / (Real.sqrt nq * Real.sqrt n₁) < 0 :=
        div_neg_of_neg_of_pos (by exact_mod_cast h₁) hden₁
      have hv₂ : (0 : ℝ) ≤ (d₂ : ℝ) / (Real.sqrt nq * Real.sqrt n₂) :=
        div_nonneg (by exact_mod_cast h₂) (le_of_lt hden₂)
      constructor
      · intro h; cases h
      · intro h; exact absurd (lt_trans hv₁ (lt_of_le_of_lt hv₂ h)) (lt_irrefl _)
    · -- both negative: compare negations
      simp only [keyGT, if_neg (not_le.mpr h₁), if_neg (not_le.mpr h₂),
        decide_eq_true_eq]
      have hkey := key (-d₂) (-d₁) n₂ n₁ hn₂ hn₁ (by linarith) (by linarith)
      have hsq : ((-d₁ : Rat) ^ 2 * n₂ < (-d₂) ^ 2 * n₁) ↔
          (d₁ ^ 2 * n₂ < d₂ ^ 2 * n₁) := by
        constructor <;> intro h <;> nlinarith [h]
      rw [← hsq, hkey]
      push_cast
      rw [neg_div, neg_div]
      exact neg_lt_neg_iff


/-- The record comparator used by `nearest` reflects the real cosine
similarity to the query. -/
theorem cosGT_iff (q u v : List Rat) :
    cosGT q u v = true ↔ cosR q v < cosR q u := by
  have h := keyGT_iff (normSq q) (normSq_nonneg q)
    (cosKey q u).1 (cosKey q u).2 (cosKey q v).1 (cosKey q v).2
    (cosKey_snd_pos q u) (cosKey_snd_pos q v)
    (fun h0 => ⟨by rw [cosKey_of_normSq_q_eq_zero q u h0],
                by rw [cosKey_of_normSq_q_eq_zero q v h0]⟩)
  unfold cosGT cosR
  exact h

/-- Record-level form of `cosGT_iff`. -/
theorem recGT_iff (q : List Rat) (a b : MemRecord) :
    recGT q a b = true ↔ recKey q b < recKey q a :=
  cosGT_iff q a.embedding b.embedding

/-! ### Inversion lemmas for the Codex operations -/

theorem add_memory_ok {env : Env} {s : CodexState} {content : String}
    {md : List (String × String)} {now : Nat} {mem : MemRecord}
    {s' : CodexState}
    (h : add_memory env s content md now = (.ok mem, s')) :
    isBlank content = false ∧
    env.embed content = some mem.embedding ∧
    mem.id = s.nextId ∧ mem.content = content ∧
    mem.metadata = md ∧ mem.timestamp = now ∧
    env.storeFails = false ∧ dimMismatch s.records mem.embedding = false ∧
    s'.records = s.records ++ [mem] ∧ s'.nextId = s.nextId + 1 := by
  unfold add_memory at h
  by_cases hb : isBlank content
  · rw [if_pos hb] at h
    simp at h
  · rw [if_neg hb] at h
    cases hemb : env.embed content with
    | none => rw [hemb] at h; simp at h
    | some emb =>
      rw [hemb] at h
      simp only at h
      by_cases hsf : env.storeFails || dimMismatch s.records emb
      · rw [if_pos hsf] at h; simp at h
      · rw [if_neg hsf] at h
        simp only [Prod.mk.injEq, Except.ok.injEq] at h
        obtain ⟨hmem, hs'⟩ := h
        rw [Bool.or_eq_true] at hsf
        push_neg at hsf
        have hembed : mem.embedding = emb := by rw [← hmem]
        refine ⟨eq_false_of_ne_true hb, ?_, ?_, ?_, ?_, ?_, ?_, ?_, ?_, ?_⟩
        · rw [hembed]
        · rw [← hmem]
        · rw [← hmem]
        · rw [← hmem]
        · rw [← hmem]
        · exact eq_false_of_ne_true hsf.1
        · rw [hembed]; exact eq_false_of_ne_true hsf.2
        · rw [← hs', ← hmem]
        · rw [← hs']

/-- On any failure, `add_memory` returns the repository unchanged
(atomic insert: no partial record is left indexed). -/
theorem add_memory_error_state {env : Env} {s : CodexState}
    {content : String} {md : List (String × String)} {now : Nat}
    {e : CodexError} {s₂ : CodexState}
    (h : add_memory env s content md now = (.error e, s₂)) : s₂ = s := by
  unfold add_memory at h
  by_cases hb : isBlank content
  · rw [if_pos hb] at h
    exact ((Prod.mk.injEq _ _ _ _).mp h).2.symm
  · rw [if_neg hb] at h
    cases hemb : env.embed content with
    | none =>
      rw [hemb] at h
      exact ((Prod.mk.injEq _ _ _ _).mp h).2.symm
    | some emb =>
      rw [hemb] at h
      simp only at h
      by_cases hsf : env.storeFails || dimMismatch s.records emb
      · rw [if_pos hsf] at h
        exact ((Prod.mk.injEq _ _ _ _).mp h).2.symm
      · rw [if_neg hsf] at h
        simp at h

/-- On a blank-free query with positive `top_k`, a working provider and a
working, dimension-consistent index, `retrieve_memory` succeeds with the
clamped nearest-neighbour result. -/
theorem retrieve_memory_ok {env : Env} {s : CodexState} {query : String}
    {top_k : Int} {qe : List Rat}
    (hq : isBlank query = false) (htk : 0 < top_k)
    (he : env.embed query = some qe) (hqf : env.queryFails = false)
    (hdim : dimMismatch s.records qe = false) :
    retrieve_memory env s query top_k =
      .ok ((nearest qe s.records (min top_k.toNat s.records.length)).map
        (fun r => r.content)) := by
  unfold retrieve_memory
  rw [hq, if_neg (by simp), if_neg (not_le.mpr htk), he]
  simp only [hqf, hdim, Bool.or_self, Bool.false_eq_true, if_false]

/-- Decidable equality for `Except`, used to evaluate the operations on
concrete inputs. -/
instance exceptDecEq {ε α : Type} [DecidableEq ε] [DecidableEq α] :
    DecidableEq (Except ε α) := fun x y =>
  match x, y with
  | .ok a, .ok b =>
    if h : a = b then .isTrue (by rw [h])
    else .isFalse (fun hc => h (by injection hc))
  | .error a, .error b =>
    if h : a = b then .isTrue (by rw [h])
    else .isFalse (fun hc => h (by injection hc))
  | .ok _, .error _ => .isFalse (fun hc => by injection hc)
  | .error _, .ok _ => .isFalse (fun hc => by injection hc)

/-! ### C1: add / retrieve round trip -/

/-- A provider embedding every text as the vector `[1]`. -/
def env1 : Env := ⟨fun _ => some [1], false, false⟩

/-- The record stored by `add_memory env1 codexEmpty "a" [] 0`. -/
def memA : MemRecord := ⟨0, "a", [1], [], 0⟩

/-- The repository after adding "a". -/
def s1C : CodexState := ⟨[memA], 1⟩

/-- The record stored by the subsequent `add_memory env1 s1C "b" [] 0`. -/
def memB : MemRecord := ⟨1, "b", [1], [], 0⟩

/-- The repository after adding "a" and then "b". -/
def s2C : CodexState := ⟨[memA, memB], 2⟩

/-- The comparator on two identical one-dimensional unit embeddings:
a tie, hence not strictly greater. -/
theorem cosGT_one_one : cosGT [1] [1] [1] = false := by
  unfold cosGT cosKey keyGT normSq dotp
  norm_num

/-- C1 (counterexample to the claim as stated): with a provider that embeds
every text as `[1]`, after adding "a" and then successfully adding "b",
`retrieve("b", top_k=1)` returns `["a"]`, not `["b"]`: the tie at cosine
similarity 1 is broken in favour of the earlier-inserted record, exactly
as the spec's tie-breaking rule dictates. -/
theorem roundtrip_counterexample :
    add_memory env1 s1C "b" [] 0 = (.ok memB, s2C) ∧
    retrieve_memory env1 s2C "b" 1 = .ok ["a"] ∧
    ["a"] ≠ ["b"] := by
  refine ⟨by decide, ?_, by decide⟩
  simp [retrieve_memory, isBlank, env1, s2C, dimMismatch, memA, memB, nearest,
    sortDesc, insertDesc, recGT, cosGT_one_one]

/-- C1 (amended): a successful `add(content)` increases `count()` by
exactly 1; and, provided the index search is available and every
previously stored record with content different from `content` is strictly
less cosine-similar to `embed(content)` than `embed(content)` is to
itself, an immediately following `retrieve(content, top_k=1)` returns the
one-element sequence `[content]`. -/
theorem add_retrieve_roundtrip
    {env : Env} {s : CodexState} {content : String}
    {md : List (String × String)} {now : Nat} {mem : MemRecord}
    {s' : CodexState}
    (hadd : add_memory env s content md now = (.ok mem, s'))
    (hqf : env.queryFails = false)
    (hbest : ∀ r ∈ s.records, r.content ≠ content →
      cosR mem.embedding r.embedding < cosR mem.embedding mem.embedding) :
    get_memory_count s' = get_memory_count s + 1 ∧
    retrieve_memory env s' content 1 = .ok [content] := by
  obtain ⟨hb, hemb, hid, hcont, hmd, hts, hsf, hdim, hrec, hnext⟩ :=
    add_memory_ok hadd
  have hlen : s'.records.length = s.records.length + 1 := by
    rw [hrec]; simp
  refine ⟨?_, ?_⟩
  · unfold get_memory_count
    exact hlen
  · have hdim' : dimMismatch s'.records mem.embedding = false := by
      rw [hrec]
      unfold dimMismatch at hdim ⊢
      rw [List.any_append, hdim]
      simp
    rw [retrieve_memory_ok hb (by norm_num) hemb hqf hdim']
    have hmin : min (1 : Int).toNat s'.records.length = 1 := by
      rw [hlen]
      exact Nat.min_eq_left (Nat.succ_le_succ (Nat.zero_le _))
    rw [hmin]
    unfold nearest
    cases hsort : sortDesc (recGT mem.embedding) s'.records with
    | nil =>
      exfalso
      have hl := length_sortDesc (recGT mem.embedding) s'.records
      rw [hsort, hlen] at hl
      simp at hl
    | cons hd tl =>
      obtain ⟨hmem_hd, hmax⟩ := head_sortDesc_max
        (recGT mem.embedding) (recKey mem.embedding)
        (recGT_iff mem.embedding)
        s'.records hd tl hsort
      have hmem_self : mem ∈ s'.records := by
        rw [hrec]
        exact List.mem_append_right _ (List.mem_singleton_self _)
      have hdcontent : hd.content = content := by
        rw [hrec] at hmem_hd
        rcases List.mem_append.mp hmem_hd with hin | hin
        · by_contra hne
          have hlt := hbest hd hin hne
          have hle : recKey mem.embedding mem ≤ recKey mem.embedding hd :=
            hmax mem hmem_self
          unfold recKey at hle
          exact absurd (lt_of_le_of_lt hle hlt) (lt_irrefl _)
        · rw [List.mem_singleton] at hin
          rw [hin, hcont]
      show Except.ok (List.map (fun r => r.content) [hd]) = Except.ok [content]
      rw [List.map_cons, List.map_nil, hdcontent]

/-- C1 witness: the amended round trip evaluated on an empty repository
with the constant provider `env1` and content "a". -/
theorem roundtrip_witness :
    get_memory_count s1C = get_memory_count codexEmpty + 1 ∧
    retrieve_memory env1 s1C "a" 1 = .ok ["a"] :=
  @add_retrieve_roundtrip env1 codexEmpty "a" [] 0 memA s1C
    (by decide) rfl
    (by intro r hr; simp [codexEmpty] at hr)

/-! ### C6: blank-input rejection -/

/-- C6: a string that is empty after trimming whitespace is rejected with
`InvalidInput` by both `add` and `retrieve` (for any `top_k`), and the
repository state is returned unchanged: nothing is stored or removed. -/
theorem blank_input_rejected (env : Env) (s : CodexState) (c : String)
    (md : List (String × String)) (now : Nat) (tk : Int)
    (hc : isBlank c = true) :
    add_memory env s c md now = (.error .invalidInput, s) ∧
    retrieve_memory env s c tk = .error .invalidInput := by
  constructor
  · unfold add_memory
    rw [hc]
    simp
  · unfold retrieve_memory
    rw [hc]
    simp

/-- C6 witness: the whitespace-only string "   " with `top_k = 5`. -/
theorem blank_input_rejected_witness :
    add_memory env1 codexEmpty "   " [] 0 = (.error .invalidInput, codexEmpty) ∧
    retrieve_memory env1 codexEmpty "   " 5 = .error .invalidInput :=
  blank_input_rejected env1 codexEmpty "   " [] 0 5 (by decide)

/-! ### C7: `top_k` validation and clamping -/

/-- C7: with a working provider and index, a non-positive `top_k` is
rejected with `InvalidInput`; a positive `top_k` never errors and returns
exactly `min top_k count` results — in particular at most `count()`
results when `top_k` exceeds the number of stored records — and retrieval
from an empty repository returns the empty sequence. -/
theorem top_k_contract (env : Env) (s : CodexState) (q : String) (tk : Int)
    (qe : List Rat) (hq : isBlank q = false)
    (he : env.embed q = some qe) (hqf : env.queryFails = false)
    (hdim : dimMismatch s.records qe = false) :
    (tk ≤ 0 → retrieve_memory env s q tk = .error .invalidInput) ∧
    (0 < tk → ∃ l, retrieve_memory env s q tk = .ok l ∧
      l.length = min tk.toNat s.records.length ∧
      l.length ≤ get_memory_count s) ∧
    (0 < tk → s.records = [] → retrieve_memory env s q tk = .ok []) := by
  refine ⟨?_, ?_, ?_⟩
  · intro htk
    unfold retrieve_memory
    rw [hq]
    simp only [Bool.false_eq_true, if_false]
    rw [if_pos htk]
  · intro htk
    refine ⟨_, retrieve_memory_ok hq htk he hqf hdim, ?_, ?_⟩
    · unfold nearest
      rw [List.length_map, List.length_take, length_sortDesc]
      omega
    · unfold nearest get_memory_count
      rw [List.length_map, List.length_take, length_sortDesc]
      omega
  · intro htk hrecs
    rw [retrieve_memory_ok hq htk he hqf hdim, hrecs]
    simp [nearest, sortDesc]

/-- C7 witness: a repository with exactly 2 records and `top_k = 10`:
the result is clamped to 2 and the call does not error; `top_k = 0` is
rejected; the empty-repository part is vacuous here. -/
theorem top_k_contract_witness :
    ((10 : Int) ≤ 0 → retrieve_memory env1 s2C "q" 10 = .error .invalidInput) ∧
    ((0 : Int) < 10 → ∃ l, retrieve_memory env1 s2C "q" 10 = .ok l ∧
      l.length = min (10 : Int).toNat s2C.records.length ∧
      l.length ≤ get_memory_count s2C) ∧
    ((0 : Int) < 10 → s2C.records = [] → retrieve_memory env1 s2C "q" 10 = .ok []) :=
  top_k_contract env1 s2C "q" 10 [1] (by decide) rfl rfl (by decide)

/-! ### C8: clear semantics -/

/-- C8: after `clear_all`, `count()` is 0, any non-blank retrieval (with a
working provider and index) returns the empty sequence, and no record —
hence no id that existed before the clear — remains stored: the repository
behaves as freshly initialized. -/
theorem clear_all_semantics (env : Env) (s : CodexState) (q : String)
    (tk : Int) (qe : List Rat) (hq : isBlank q = false) (htk : 0 < tk)
    (he : env.embed q = some qe) (hqf : env.queryFails = false) :
    get_memory_count (clear_memories s) = 0 ∧
    retrieve_memory env (clear_memories s) q tk = .ok [] ∧
    ∀ r : MemRecord, r ∉ (clear_memories s).records := by
  refine ⟨rfl, ?_, ?_⟩
  · rw [retrieve_memory_ok hq htk he hqf (by rfl)]
    simp [nearest, sortDesc, clear_memories]
  · intro r hr
    simp [clear_memories] at hr

/-- C8 witness: clearing the two-record repository `s2C` and querying it. -/
theorem clear_all_semantics_witness :
    get_memory_count (clear_memories s2C) = 0 ∧
    retrieve_memory env1 (clear_memories s2C) "q" 3 = .ok [] ∧
    ∀ r : MemRecord, r ∉ (clear_memories s2C).records :=
  clear_all_semantics env1 s2C "q" 3 [1] (by decide) (by decide) rfl rfl

/-! ### C9: clear_beliefs frame -/

/-- C9: `clear_beliefs` empties the belief set and leaves everything else
unchanged: the intention and the underlying repository (hence its count
and stored records) are untouched. -/
theorem clear_beliefs_frame (st : LoopState) :
    get_beliefs (clear_beliefs st) = ∅ ∧
    get_current_intention (clear_beliefs st) = get_current_intention st ∧
    (clear_beliefs st).codex = st.codex :=
  ⟨rfl, rfl, rfl⟩

/-! ### C3: dimensionality-mismatch rejection -/

/-- C3: an `add` or `retrieve` whose embedding's dimensionality differs
from that of the already-stored records fails with `StorageFailure`; the
operation completes nothing (the state comes back unchanged) and no
similarity results are returned. -/
theorem dim_mismatch_rejected (env : Env) (s : CodexState)
    (c q : String) (md : List (String × String)) (now : Nat) (tk : Int)
    (e e' : List Rat)
    (hc : isBlank c = false) (hq : isBlank q = false) (htk : 0 < tk)
    (hec : env.embed c = some e) (heq : env.embed q = some e')
    (hmc : dimMismatch s.records e = true)
    (hmq : dimMismatch s.records e' = true) :
    add_memory env s c md now = (.error .storageFailure, s) ∧
    retrieve_memory env s q tk = .error .storageFailure := by
  constructor
  · unfold add_memory
    rw [hc]
    simp only [Bool.false_eq_true, if_false]
    rw [hec]
    simp only [hmc, Bool.or_true, if_true]
  · unfold retrieve_memory
    rw [hq]
    simp only [Bool.false_eq_true, if_false]
    rw [if_neg (not_le.mpr htk), heq]
    simp only [hmq, Bool.or_true, if_true]

/-- A provider embedding every text as the two-dimensional vector
`[1, 0]`, mismatching the one-dimensional records of `s1C`. -/
def env2 : Env := ⟨fun _ => some [1, 0], false, false⟩

/-- C3 witness: a 2-dimensional embedding against a 1-dimensional
collection is rejected on both `add` and `retrieve`. -/
theorem dim_mismatch_rejected_witness :
    add_memory env2 s1C "b" [] 0 = (.error .storageFailure, s1C) ∧
    retrieve_memory env2 s1C "b" 3 = .error .storageFailure :=
  dim_mismatch_rejected env2 s1C "b" "b" [] 0 3 [1, 0] [1, 0]
    (by decide) (by decide) (by decide) rfl rfl (by decide) (by decide)

/-! ### C4: add-failure aborts the cycle -/

/-- C4: if the `add` performed by `process_input` fails, the cycle is
aborted: beliefs, intention and repository are exactly as before the call
(the error itself is reported via a printed diagnostic, outside the state
model), and the insert was atomic, so the memory count is unchanged. -/
theorem add_failure_aborts_cycle (env : Env) (st : LoopState) (t : String)
    (now : Nat) (e : CodexError) (s₂ : CodexState)
    (ht : isBlank t = false)
    (hfail : add_memory env st.codex t sensoryMetadata now = (.error e, s₂)) :
    process_sensory_input env st t now = st ∧ s₂ = st.codex := by
  constructor
  · unfold process_sensory_input
    rw [ht]
    simp only [Bool.false_eq_true, if_false]
    rw [hfail]
  · exact add_memory_error_state hfail

/-- A provider that is always unavailable. -/
def envNoEmbed : Env := ⟨fun _ => none, false, false⟩

/-- C4 witness: a failing provider on input "Hello" leaves the fresh agent
state untouched. -/
theorem add_failure_aborts_cycle_witness :
    process_sensory_input envNoEmbed (loopInit codexEmpty) "Hello" 0 =
      loopInit codexEmpty ∧ codexEmpty = (loopInit codexEmpty).codex :=
  add_failure_aborts_cycle envNoEmbed (loopInit codexEmpty) "Hello" 0
    .embeddingFailure codexEmpty (by decide) (by decide)

/-! ### String helpers: distinguishing the template strings -/

/-- Appending cannot change the first character of a non-empty string. -/
theorem append_head (p s : String) (c : Char) (hp : p.data.head? = some c) :
    (p ++ s).data.head? = some c := by
  rw [String.data_append]
  cases hpd : p.data with
  | nil => rw [hpd] at hp; cases hp
  | cons x xs =>
    rw [hpd] at hp
    simp only [List.head?_cons, Option.some.injEq] at hp
    rw [List.cons_append, List.head?_cons, hp]

/-- Strings whose first characters differ are different. -/
theorem ne_of_data_head_ne (a b : String)
    (hne : a.data.head? ≠ b.data.head?) : a ≠ b :=
  fun h => hne (congrArg (fun s => s.data.head?) h)

/-- On a non-empty belief set, `_deliberate` never returns the fixed
await-input statement: both "Formulate …" templates start with 'F'. -/
theorem deliberate_ne_await (st : LoopState) (h : ¬st.beliefs = ∅) :
    deliberate st ≠ awaitIntention := by
  unfold deliberate
  rw [if_neg h]
  split
  · apply ne_of_data_head_ne
    rw [append_head _ _ 'F'
      (append_head "Formulate a response based on recent input and " _ 'F'
        (by decide))]
    decide
  · decide

/-! ### C10: a stored input always yields a non-await intention -/

/-- After `_update_beliefs`, the belief set is that of the input state
with at least the input-received belief added; nothing else changes. -/
theorem update_beliefs_spec (env : Env) (st : LoopState) (t : String) :
    ∃ B : Finset String, update_beliefs env st t =
      { st with beliefs := B } ∧
      ("The user recently said: " ++ t) ∈ B := by
  unfold update_beliefs
  cases retrieve_memory env st.codex t 3 with
  | error e => exact ⟨_, rfl, Finset.mem_insert_self _ _⟩
  | ok mems =>
    dsimp only
    by_cases hl : mems.length ≠ 0
    · rw [if_pos hl]
      exact ⟨_, rfl, Finset.mem_insert_of_mem (Finset.mem_insert_self _ _)⟩
    · rw [if_neg hl]
      exact ⟨_, rfl, Finset.mem_insert_self _ _⟩

/-- C10: whenever the non-blank input of `process_input` is successfully
stored, the resulting intention is present and is never the fixed
await-input statement: the input-received belief is added before
deliberation, so the empty-belief branch is unreachable. -/
theorem stored_input_intention (env : Env) (st : LoopState) (t : String)
    (now : Nat) (mem : MemRecord) (c' : CodexState)
    (ht : isBlank t = false)
    (hadd : add_memory env st.codex t sensoryMetadata now = (.ok mem, c')) :
    ∃ i, get_current_intention (process_sensory_input env st t now) = some i ∧
      i ≠ awaitIntention := by
  have hproc : process_sensory_input env st t now =
      run_cycle (update_beliefs env { st with codex := c' } t) := by
    unfold process_sensory_input
    rw [ht]
    simp only [Bool.false_eq_true, if_false]
    rw [hadd]
  obtain ⟨B, hupd, hB⟩ := update_beliefs_spec env { st with codex := c' } t
  rw [hproc, hupd]
  refine ⟨_, rfl, ?_⟩
  exact deliberate_ne_await _ (Finset.ne_empty_of_mem hB)

/-- C10 witness: the fresh agent with the constant provider on "Hello". -/
theorem stored_input_intention_witness :
    ∃ i, get_current_intention
        (process_sensory_input env1 (loopInit codexEmpty) "Hello" 0) = some i ∧
      i ≠ awaitIntention :=
  @stored_input_intention env1 (loopInit codexEmpty) "Hello" 0
    ⟨0, "Hello", [1], sensoryMetadata, 0⟩ ⟨[⟨0, "Hello", [1], sensoryMetadata, 0⟩], 1⟩
    (by decide) (by decide)

/-! ### C5: retrieval failure is isolated -/

/-- C5: if the `add` inside `process_input` succeeds but the subsequent
`retrieve(text, top_k=3)` fails, the memory is still stored (count
increments by 1), the input-received belief is still added — and it is the
only belief added: no context belief — and the intention is still
overwritten, with the count-parameterized statement. -/
theorem retrieve_failure_isolated (env : Env) (st : LoopState) (t : String)
    (now : Nat) (mem : MemRecord) (c' : CodexState)
    (ht : isBlank t = false)
    (hadd : add_memory env st.codex t sensoryMetadata now = (.ok mem, c'))
    (hqf : env.queryFails = true) :
    get_memory_count (process_sensory_input env st t now).codex =
      get_memory_count st.codex + 1 ∧
    (process_sensory_input env st t now).beliefs =
      insert ("The user recently said: " ++ t) st.beliefs ∧
    get_current_intention (process_sensory_input env st t now) =
      some ("Formulate a response based on recent input and " ++
        toString (get_memory_count st.codex + 1) ++ " stored memories.") := by
  obtain ⟨hb, hemb, hid, hcont, hmd, hts, hsf, hdim, hrec, hnext⟩ :=
    add_memory_ok hadd
  have hcount : get_memory_count c' = get_memory_count st.codex + 1 := by
    unfold get_memory_count
    rw [hrec]
    simp
  have hret : retrieve_memory env c' t 3 = .error .storageFailure := by
    unfold retrieve_memory
    rw [ht]
    simp only [Bool.false_eq_true, if_false]
    rw [if_neg (by norm_num), hemb]
    simp [hqf]
  have hproc : process_sensory_input env st t now =
      run_cycle (update_beliefs env { st with codex := c' } t) := by
    unfold process_sensory_input
    rw [ht]
    simp only [Bool.false_eq_true, if_false]
    rw [hadd]
  have hupd : update_beliefs env { st with codex := c' } t =
      { codex := c', beliefs := insert ("The user recently said: " ++ t) st.beliefs, current_intention := st.current_intention } := by
    unfold update_beliefs
    dsimp only
    rw [hret]
  rw [hproc, hupd]
  unfold run_cycle
  refine ⟨hcount, rfl, ?_⟩
  unfold get_current_intention deliberate
  dsimp only
  rw [if_neg (Finset.insert_ne_empty _ _), if_pos (by rw [hcount]; omega), hcount]

/-- A working provider whose index search fails. -/
def envQueryFails : Env := ⟨fun _ => some [1], false, true⟩

/-- C5 witness: a fresh agent whose index search fails on retrieval:
"Hello" is stored, exactly the input belief is added, and the intention
mentions the new count 1. -/
theorem retrieve_failure_isolated_witness :
    get_memory_count
        (process_sensory_input envQueryFails (loopInit codexEmpty) "Hello" 0).codex =
      get_memory_count (loopInit codexEmpty).codex + 1 ∧
    (process_sensory_input envQueryFails (loopInit codexEmpty) "Hello" 0).beliefs =
      insert ("The user recently said: " ++ "Hello") (loopInit codexEmpty).beliefs ∧
    get_current_intention
        (process_sensory_input envQueryFails (loopInit codexEmpty) "Hello" 0) =
      some ("Formulate a response based on recent input and " ++
        toString (get_memory_count (loopInit codexEmpty).codex + 1) ++
        " stored memories.") :=
  @retrieve_failure_isolated envQueryFails (loopInit codexEmpty) "Hello" 0
    ⟨0, "Hello", [1], sensoryMetadata, 0⟩ ⟨[⟨0, "Hello", [1], sensoryMetadata, 0⟩], 1⟩
    (by decide) (by decide) rfl

/-! ### C2: the first cognitive cycle -/

/-- C2 (counterexample to the claim as stated): on a fresh cycle over an
empty repository, `process_input("Hello")` leaves 2 beliefs — not 1 — and
the intention is the count-mentioning variant ("… 1 stored memories."),
not the "no stored memories" variant: the input is stored *before* the
context retrieval, so the just-stored memory itself is retrieved. -/
theorem first_cycle_counterexample :
    (process_sensory_input env1 (loopInit codexEmpty) "Hello" 0).beliefs.card = 2 ∧
    get_current_intention (process_sensory_input env1 (loopInit codexEmpty) "Hello" 0) =
      some "Formulate a response based on recent input and 1 stored memories." ∧
    (2 : Nat) ≠ 1 ∧
    ("Formulate a response based on recent input and 1 stored memories." : String) ≠
      "Formulate a response based on recent input and related memories." := by
  refine ⟨by decide, by decide, by decide, by decide⟩

/-- C2 (amended): a fresh Cognitive Cycle over an empty repository has no
beliefs and no intention; after one successful `process_input(t)` (working
provider and index), the belief set has exactly 2 entries — the
input-received belief plus a context belief about 1 related memory, since
the just-stored memory itself is retrieved — and the intention is the
count-mentioning variant for a count of 1. -/
theorem first_cycle (env : Env) (t : String) (now : Nat) (e : List Rat)
    (ht : isBlank t = false) (he : env.embed t = some e)
    (hsf : env.storeFails = false) (hqf : env.queryFails = false) :
    get_beliefs (loopInit codexEmpty) = ∅ ∧
    get_current_intention (loopInit codexEmpty) = none ∧
    (process_sensory_input env (loopInit codexEmpty) t now).beliefs.card = 2 ∧
    get_current_intention (process_sensory_input env (loopInit codexEmpty) t now) =
      some "Formulate a response based on recent input and 1 stored memories." := by
  have hadd : add_memory env codexEmpty t sensoryMetadata now =
      (.ok ⟨0, t, e, sensoryMetadata, now⟩,
        ⟨[⟨0, t, e, sensoryMetadata, now⟩], 1⟩) := by
    unfold add_memory
    rw [ht]
    simp only [Bool.false_eq_true, if_false]
    rw [he]
    simp [hsf, dimMismatch, codexEmpty]
  have hret : retrieve_memory env
      (⟨[⟨0, t, e, sensoryMetadata, now⟩], 1⟩ : CodexState) t 3 = .ok [t] := by
    rw [retrieve_memory_ok ht (by norm_num) he hqf (by simp [dimMismatch])]
    simp [nearest, sortDesc, insertDesc]
  have hproc : process_sensory_input env (loopInit codexEmpty) t now =
      run_cycle (update_beliefs env
        ({ codex := ⟨[⟨0, t, e, sensoryMetadata, now⟩], 1⟩, beliefs := ∅,
           current_intention := none } : LoopState) t) := by
    unfold process_sensory_input loopInit
    rw [ht]
    simp only [Bool.false_eq_true, if_false]
    rw [hadd]
  have hupd : update_beliefs env
      ({ codex := ⟨[⟨0, t, e, sensoryMetadata, now⟩], 1⟩, beliefs := ∅,
         current_intention := none } : LoopState) t =
      { codex := ⟨[⟨0, t, e, sensoryMetadata, now⟩], 1⟩,
        beliefs := insert ("I have " ++ toString (1 : Nat) ++ " related memories about similar topics") (insert ("The user recently said: " ++ t) ∅),
        current_intention := none } := by
    unfold update_beliefs
    dsimp only
    rw [hret]
    dsimp only [List.length_cons, List.length_nil]
    rw [if_pos (by omega)]
  have hctxne : ("I have " ++ toString (1 : Nat) ++
      " related memories about similar topics") ≠
      ("The user recently said: " ++ t) := by
    apply ne_of_data_head_ne
    rw [append_head _ _ 'I' (append_head "I have " _ 'I' (by decide)),
      append_head _ _ 'T' (by decide)]
    decide
  refine ⟨rfl, rfl, ?_, ?_⟩
  · rw [hproc, hupd]
    unfold run_cycle
    dsimp only
    rw [Finset.card_insert_of_not_mem (by simp [hctxne])]
    simp
  · rw [hproc, hupd]
    unfold run_cycle get_current_intention deliberate
    dsimp only
    rw [if_neg (Finset.insert_ne_empty _ _),
      if_pos (by simp [get_memory_count])]
    simp only [get_memory_count, List.length_cons, List.length_nil,
      Option.some.injEq]
    decide

/-- C2 witness: the amended first-cycle behaviour on the constant
provider `env1` with input "Hello". -/
theorem first_cycle_witness :
    get_beliefs (loopInit codexEmpty) = ∅ ∧
    get_current_intention (loopInit codexEmpty) = none ∧
    (process_sensory_input env1 (loopInit codexEmpty) "Hello" 0).beliefs.card = 2 ∧
    get_current_intention (process_sensory_input env1 (loopInit codexEmpty) "Hello" 0) =
      some "Formulate a response based on recent input and 1 stored memories." :=
  first_cycle env1 "Hello" 0 [1] (by decide) rfl rfl rfl

end CodexSynaptic
